import Mathlib

/-!
Verification of the core of `src/app.py` (Simulador Economia Circular Verde):
a shallow embedding of the input-cell discovery heuristic, the value coercion,
the workbook-to-model builder, the per-cell safe evaluation wrapper, the
result-unwrapping cascade and the conditional-evaluation patch, together with
theorems about the properties stated in the specification.

Python values are modelled by the inductive `XlVal`; Python `float` values are
modelled as exact rationals (the decimal literals appearing in the claims are
all exactly representable).  Raising Python code is modelled with
`Except String`, the `String` being the exception message.
-/

namespace SimEco

/-- Model of the values flowing through the evaluator: plain Python scalars
(`None`, `int`, `float`, `str`, `bool`) plus the xlcalculator wrappers that
`_unwrap_excel_value` has to deal with: `expr body` models a
`func_xltypes.Expr` whose invocation returns `body`, `exprRaise m` models an
`Expr` whose invocation raises an exception with message `m`, `array elems`
models a `func_xltypes.Array` whose row-major flattening is `elems`, and
`wrapped inner` models an object exposing a `.value` attribute while not being
a primitive scalar. -/
inductive XlVal where
  | vnone
  | vint (n : Int)
  | vfloat (q : Rat)
  | vstr (s : String)
  | vbool (b : Bool)
  | expr (body : XlVal)
  | exprRaise (m : String)
  | array (elems : List XlVal)
  | wrapped (inner : XlVal)

/-- Whether `val` is a primitive Python scalar (`int`, `float`, `str` or `bool`) —
the class tuple used by the `isinstance` checks in `_unwrap_excel_value`. -/
def XlVal.isScalar : XlVal → Bool
  | .vint _ => true
  | .vfloat _ => true
  | .vstr _ => true
  | .vbool _ => true
  | _ => false

/-- Python truthiness (`bool(v)` / `if v:`): `None`, `0`, `0.0`, `""` and
`False` are falsy; everything else is truthy (a bare object is truthy, an
array is truthy when non-empty). -/
def pyBool : XlVal → Bool
  | .vnone => false
  | .vint n => n != 0
  | .vfloat q => decide (q ≠ 0)
  | .vstr s => !s.data.isEmpty
  | .vbool b => b
  | .expr _ => true
  | .exprRaise _ => true
  | .array elems => !elems.isEmpty
  | .wrapped _ => true

/-- The function `_unwrap_excel_value` from `src/app.py`.  The source first invokes an
`Expr` wrapper (`val = val()` — modelled by stepping into `expr`/`exprRaise`,
the latter propagating the exception), then, on the resulting value: a
flattened `Array` yields the recursive unwrap of its first element, an empty
`Array` yields `None`; a non-primitive object with a `.value` attribute yields
that attribute; anything else is returned unchanged. -/
def unwrap_excel_value : XlVal → Except String XlVal
  | .exprRaise m => .error m
  | .expr (.array []) => .ok .vnone
  | .expr (.array (x :: _)) => unwrap_excel_value x
  | .expr (.wrapped inner) => .ok inner
  | .expr v => .ok v
  | .array [] => .ok .vnone
  | .array (x :: _) => unwrap_excel_value x
  | .wrapped inner => .ok inner
  | v => .ok v

/-- The function `safe_eval` from `src/app.py`: the whole expression
`_unwrap_excel_value(evaluator.evaluate(addr))` runs inside a `try`; an
exception with message `m` raised by either step is converted to the string
`"Erro: " ++ m`.  The argument models the pending computation
`evaluator.evaluate(addr)`. -/
def safe_eval (evalResult : Except String XlVal) : XlVal :=
  match evalResult.bind unwrap_excel_value with
  | .ok v => v
  | .error m => .vstr ("Erro: " ++ m)

/-- The per-KPI loop of the app: each output cell is evaluated through
`safe_eval` independently (`for name, addr in OUTPUT_CELLS.items(): val =
safe_eval(engine, addr)`). -/
def evalBatch (evaluator : String → Except String XlVal) (addrs : List String) :
    List XlVal :=
  addrs.map (fun a => safe_eval (evaluator a))

/-- A branch argument of `IF_SAFE`: either a zero-argument callable (whose
invocation returns a value or raises) or a plain non-callable value. -/
inductive Branch where
  | callable (run : Except String XlVal)
  | plain (v : XlVal)

/-- The branch after the wrapping step of `IF_SAFE`
(`fn = b if callable(b) else lambda: b`), invoked: a callable runs; a plain
value was wrapped in `lambda: b`, so invocation just returns it. -/
def runBranch : Branch → Except String XlVal
  | .callable r => r
  | .plain v => .ok v

/-- The patch `IF_SAFE` from `src/app.py`: fully dereference the test with
`_unwrap_excel_value`, pick the branch by Python truthiness of the result,
invoke only the chosen branch, and dereference the invocation result with the
same unwrap. -/
def IF_SAFE (logical_test : XlVal) (value_if_true value_if_false : Branch) :
    Except String XlVal :=
  match unwrap_excel_value logical_test with
  | .error m => .error m
  | .ok cond =>
    let chosen := if pyBool cond then value_if_true else value_if_false
    match runBranch chosen with
    | .error m => .error m
    | .ok res => unwrap_excel_value res

/-! ### String helpers

The built-in `String.trim`, `String.toLower`, `String.replace`,
`String.startsWith` do not reduce inside the kernel, so the Python string
operations used by the source are modelled directly on the underlying
character lists. -/

/-- The characters Python `str.strip()` removes: space, tab, newline,
carriage return, vertical tab, form feed. -/
def isPySpace (c : Char) : Bool :=
  c == ' ' || c == '\t' || c == '\n' || c == '\r' ||
    c == Char.ofNat 11 || c == Char.ofNat 12

/-- Python `str.strip()` on a character list. -/
def pyStripChars (cs : List Char) : List Char :=
  ((cs.dropWhile isPySpace).reverse.dropWhile isPySpace).reverse

/-- Python `s.strip()`. -/
def pyStrip (s : String) : String := String.mk (pyStripChars s.data)

/-- ASCII lowercasing of one character (Python `str.lower()` restricted to
ASCII, which is all the source compares: `"true"` / `"false"`). -/
def asciiLower (c : Char) : Char :=
  if 'A' ≤ c && c ≤ 'Z' then Char.ofNat (c.toNat + 32) else c

/-- Python `s.lower()` (ASCII fragment). -/
def pyLower (s : String) : String := String.mk (s.data.map asciiLower)

/-- Whether `pre` is a leading segment of `cs` (character lists). -/
def listStartsWith : List Char → List Char → Bool
  | [], _ => true
  | _ :: _, [] => false
  | p :: ps, c :: cs => p == c && listStartsWith ps cs

/-- Python `s.startswith(pre)`. -/
def pyStartsWith (pre s : String) : Bool := listStartsWith pre.data s.data

/-- Python `ch in s` for a single character. -/
def pyContainsChar (ch : Char) (s : String) : Bool := s.data.contains ch

/-- Remove every occurrence of `ch` (Python `s.replace(ch, "")`). -/
def removeChar (ch : Char) (cs : List Char) : List Char :=
  cs.filter (fun c => c != ch)

/-- Replace every occurrence of `old` by `new`
(Python `s.replace(old, new)` for one-character patterns). -/
def replaceChar (old new : Char) (cs : List Char) : List Char :=
  cs.map (fun c => if c == old then new else c)

/-- The predicate `is_formula` from `src/app.py`: a value that is a string starting
with `"="`. -/
def is_formula : XlVal → Bool
  | .vstr s => pyStartsWith "=" s
  | _ => false

/-! ### Value coercion -/

/-- Digit characters to the `Nat` they denote (`digitsToNat ['4','2'] = 42`). -/
def digitsToNat (cs : List Char) : Nat :=
  cs.foldl (fun a c => a * 10 + (c.toNat - 48)) 0

/-- Parse the optional exponent tail of a Python float literal: empty input
means exponent `0`; otherwise an `e`/`E` followed by an optional sign and a
non-empty digit run; anything else is a parse failure. -/
def parseExpTail : List Char → Option Int
  | [] => some 0
  | c :: t =>
    if c == 'e' || c == 'E' then
      match t with
      | '-' :: d => if !d.isEmpty && d.all Char.isDigit then some (-(digitsToNat d : Int)) else none
      | '+' :: d => if !d.isEmpty && d.all Char.isDigit then some (digitsToNat d : Int) else none
      | d => if !d.isEmpty && d.all Char.isDigit then some (digitsToNat d : Int) else none
    else none

/-- Model of Python `float(s)` parsing, returning the value as a fraction
`(numerator, denominator)` with the denominator a power of `10`:
surrounding whitespace, an optional sign, an integer part and/or a fractional
part (at least one digit between them), and an optional exponent.
(`inf`/`nan` spellings and digit-group underscores are not modelled; the
digit gate in `coerce_value` makes the former unreachable there.) -/
def pyFloatParse (s : List Char) : Option (Int × Nat) :=
  let cs := pyStripChars s
  let signed : Int × List Char :=
    match cs with
    | '-' :: t => (-1, t)
    | '+' :: t => (1, t)
    | _ => (1, cs)
  let ip := signed.2.takeWhile Char.isDigit
  let r1 := signed.2.dropWhile Char.isDigit
  let fp := match r1 with
    | '.' :: t => t.takeWhile Char.isDigit
    | _ => []
  let r2 := match r1 with
    | '.' :: t => t.dropWhile Char.isDigit
    | _ => r1
  match parseExpTail r2 with
  | none => none
  | some e =>
    if ip.isEmpty && fp.isEmpty then none
    else
      let m : Int := (digitsToNat (ip ++ fp) : Int)
      let eAdj : Int := e - (fp.length : Int)
      if 0 ≤ eAdj then some (signed.1 * m * 10 ^ eAdj.toNat, 1)
      else some (signed.1 * m, 10 ^ (-eAdj).toNat)

/-- Python `float(s)` as an exact rational, `none` on parse failure. -/
def pyFloat (s : String) : Option Rat :=
  (pyFloatParse s.data).map (fun p => mkRat p.1 p.2)

/-- The locale transform of `coerce_value` applied to the stripped string:
with a comma, remove every `"."` (thousands separator) and turn the `","`
into a decimal point; without a comma, keep the string. -/
def coerceTransform (s : String) : String :=
  if pyContainsChar ',' s then
    String.mk (replaceChar ',' '.' (removeChar '.' s.data))
  else s

/-- The function `coerce_value` from `src/app.py`: `None` and already-typed
`int`/`float`/`bool` pass through; a string is stripped, `"true"`/`"false"`
(case-insensitive) become booleans, otherwise the locale transform is applied,
a float parse is attempted only when the transformed string contains a digit,
and any parse failure (as well as the no-digit case) returns the original
value unchanged. -/
def coerce_value (v : XlVal) : XlVal :=
  match v with
  | .vstr str =>
    let s := pyStrip str
    if pyLower s == "true" || pyLower s == "false" then
      .vbool (pyLower s == "true")
    else
      let s2 := coerceTransform s
      if s2.data.any Char.isDigit then
        match pyFloat s2 with
        | some q => .vfloat q
        | none => v
      else v
  | other => other

/-! ### Workbook model

An openpyxl workbook, as far as the source reads it: an ordered list of
sheets; each sheet has a title, the `max_row`/`max_column` bounds, and for
every `1`-based `(row, column)` pair a raw cell value and a fill.  (`ws.cell`
is total in openpyxl; cells outside the used area read as `None`.) -/

/-- Fill foreground color: its `type` string and, when theme-indexed, the
theme slot. -/
structure ColorM where
  ctype : String
  theme : Option Int

/-- Cell fill: the pattern type (`None` or e.g. `"solid"`) and the
foreground color object, `none` when falsy. -/
structure FillM where
  patternType : Option String
  fgColor : Option ColorM

/-- One worksheet. -/
structure Sheet where
  title : String
  maxRow : Nat
  maxCol : Nat
  val : Nat → Nat → XlVal
  fill : Nat → Nat → Option FillM

/-- A workbook is its ordered list of worksheets. -/
abbrev Workbook := List Sheet

/-- The fill test of `is_probably_input_cell`: `fill and fill.patternType ==
"solid" and fill.fgColor and fill.fgColor.type == "theme" and
fill.fgColor.theme == 7`. -/
def fillIsInputStyle : Option FillM → Bool
  | some f =>
    (f.patternType == some "solid") &&
      (match f.fgColor with
       | some col => col.ctype == "theme" && col.theme == some 7
       | none => false)
  | none => false

/-- The heuristic `is_probably_input_cell` from `src/app.py`: value present (not `None`,
not `""`), not a formula, and a solid fill whose foreground color is
theme-indexed with theme index 7. -/
def is_probably_input_cell (v : XlVal) (fill : Option FillM) : Bool :=
  match v with
  | .vnone => false
  | .vstr s =>
    if s.data.isEmpty then false
    else if pyStartsWith "=" s then false
    else fillIsInputStyle fill
  | _ => fillIsInputStyle fill

/-! ### Cell addresses -/

/-- Letters of the openpyxl `get_column_letter` (bijective base 26, `1 ↦ A`),
with a structural fuel argument so the kernel can evaluate it; `fuel ≥ n`
suffices. -/
def colLettersAux : Nat → Nat → List Char
  | _, 0 => []
  | 0, _ + 1 => []
  | fuel + 1, n + 1 => colLettersAux fuel (n / 26) ++ [Char.ofNat (65 + n % 26)]

/-- openpyxl `get_column_letter`: `1 ↦ "A"`, `26 ↦ "Z"`, `27 ↦ "AA"`. -/
def get_column_letter (c : Nat) : String := String.mk (colLettersAux c c)

/-- Decimal digits of `n + 1` with structural fuel (`fuel ≥ n + 1`
suffices). -/
def natDigitsAux : Nat → Nat → List Char
  | _, 0 => []
  | 0, _ + 1 => []
  | fuel + 1, n + 1 => natDigitsAux fuel ((n + 1) / 10) ++ [Char.ofNat (48 + (n + 1) % 10)]

/-- Python `str(n)` for a natural number. -/
def natStr (n : Nat) : String :=
  if n = 0 then "0" else String.mk (natDigitsAux n n)

/-- Python `str(n)` for an integer. -/
def intStr (n : Int) : String :=
  if n < 0 then "-" ++ natStr (-n).toNat else natStr n.toNat

/-- Decimal-style rendering of a rational modelling Python `str` on a float:
integral values render as `"k.0"`; (non-integral rationals fall back to a
fraction rendering — no claim evaluates `str` on a non-integral float). -/
def ratStr (q : Rat) : String :=
  if q.den = 1 then intStr q.num ++ ".0"
  else intStr q.num ++ "/" ++ natStr q.den

/-- Python `str(v)` on the scalar values a workbook cell can hold. -/
def pyStr : XlVal → String
  | .vnone => "None"
  | .vint n => intStr n
  | .vfloat q => ratStr q
  | .vstr s => s
  | .vbool true => "True"
  | .vbool false => "False"
  | _ => "<excel-object>"

/-- The canonical address `f"{sheet}!{col_letter}{row}"`. -/
def cellAddr (sheet : String) (r c : Nat) : String :=
  sheet ++ "!" ++ get_column_letter c ++ natStr r

/-- The `(row, column)` pairs visited by the nested loops of the source
(`for r in range(1, max_row + 1): for c in range(1, max_column + 1)`), in
visit order: row-major, both `1`-based. -/
def sheetCoords (ws : Sheet) : List (Nat × Nat) :=
  ((List.range ws.maxRow).map (· + 1)) ×ˢ ((List.range ws.maxCol).map (· + 1))

/-! ### Input discovery -/

/-- The record appended by `discover_inputs` for one qualifying cell. -/
structure InputDescriptor where
  label : String
  address : String
  default : XlVal
  row : Nat
  col : Nat

/-- The descriptor built for cell `(r, c)` of sheet `ws`: address from the
canonical form, label from the column-B cell of the same row when that value
is truthy (`str(label).strip() if label else addr`), default from the raw
value of the cell. -/
def mkDesc (sheet_name : String) (ws : Sheet) (r c : Nat) : InputDescriptor :=
  let addr := cellAddr sheet_name r c
  let labelRaw := ws.val r 2
  { label := if pyBool labelRaw then pyStrip (pyStr labelRaw) else addr
    address := addr
    default := ws.val r c
    row := r
    col := c }

/-- The Python sort key comparison `(x.row, x.col) ≤ (y.row, y.col)`
(lexicographic), as a Boolean. -/
def descLE (d e : InputDescriptor) : Bool :=
  d.row < e.row || (d.row == e.row && d.col ≤ e.col)

/-- Insert into a sorted list, before the first element not strictly below
(stable insertion, matching the stable Python `list.sort`). -/
def pySortInsert (le : α → α → Bool) (a : α) : List α → List α
  | [] => [a]
  | b :: l => if le a b then a :: b :: l else b :: pySortInsert le a l

/-- Stable sort by a total Boolean comparison, modelling Python
`list.sort(key=...)`. -/
def pySort (le : α → α → Bool) : List α → List α
  | [] => []
  | a :: l => pySortInsert le a (pySort le l)

/-- The error message raised for a missing sheet: the Python f-string
interpolating the quoted sheet name and the list repr of the available
sheet names. -/
def sheetNotFoundMsg (sheet_name : String) (sheetnames : List String) : String :=
  let sq := String.mk [Char.ofNat 39]
  "Aba " ++ sq ++ sheet_name ++ sq ++ " não encontrada.\nAbas disponíveis: [" ++
    String.intercalate ", " (sheetnames.map (fun s => sq ++ s ++ sq)) ++ "]"

/-- The descriptor list accumulated by the nested scan loops of
`discover_inputs`, in visit order: one descriptor per qualifying cell. -/
def descList (sheet_name : String) (ws : Sheet) : List InputDescriptor :=
  (sheetCoords ws).filterMap (fun rc =>
    if is_probably_input_cell (ws.val rc.1 rc.2) (ws.fill rc.1 rc.2) then
      some (mkDesc sheet_name ws rc.1 rc.2)
    else none)

/-- The function `discover_inputs` from `src/app.py`: raise if the sheet name is absent
(message carrying all sheet names — `wb[sheet_name]` is the sheet with that
title, titles being unique); otherwise scan every cell of the sheet in
row-major order, keep the qualifying ones as descriptors, and sort by
`(row, col)`. -/
def discover_inputs (wb : Workbook) (sheet_name : String) :
    Except String (List InputDescriptor) :=
  match wb.find? (fun ws => ws.title == sheet_name) with
  | none => .error (sheetNotFoundMsg sheet_name (wb.map Sheet.title))
  | some ws => .ok (pySort descLE (descList sheet_name ws))

/-! ### Model builder

Python dicts are modelled as association lists with insertion-order
semantics: assignment overwrites in place when the key exists and appends
otherwise; lookup returns the (unique) binding. -/

/-- Python `d[k] = v`: overwrite in place at the (unique) occurrence of the
key, append at the end when the key is absent. -/
def dictInsert (d : List (String × α)) (k : String) (v : α) : List (String × α) :=
  match d with
  | [] => [(k, v)]
  | p :: rest => if p.1 == k then (k, v) :: rest else p :: dictInsert rest k v

/-- Python `d.get(k)` / `k in d`. -/
def dictGet (d : List (String × α)) (k : String) : Option α :=
  (d.find? (fun p => p.1 == k)).map (·.2)

/-- The record `xltypes.XLCell` as the builder populates it: the canonical address, the
stored value (`None` when the cell holds a formula) and the formula text when
present. -/
structure XLCellM where
  address : String
  value : XlVal
  formulaText : Option String

/-- The parts of `xltypes.Model` the builder writes: the `cells`, `formulae`
and `ranges` dicts.  (`build_code` is the third-party compilation step and
mutates none of these map keys.) -/
structure ModelM where
  cells : List (String × XLCellM)
  formulae : List (String × String)
  ranges : List String

/-- The range-registration loop of the builder: for every reference term of a
formula containing `":"` and not already a key of `mdl.ranges`, register the
term (the `XLRange(term, term)` payload is determined by the key, so the
model keeps only the keys). -/
def addRangeTerms (rs : List String) (ts : List String) : List String :=
  ts.foldl
    (fun acc t =>
      if pyContainsChar ':' t && !acc.contains t then acc ++ [t] else acc)
    rs

/-- The body of the innermost builder loop for one cell, given the
reference-term extractor of `xltypes.XLFormula` (third-party; kept abstract):
skip `None` values, store a literal cell, or store a formula cell and
register its range-shaped terms. -/
def processCell (terms : String → List String) (sheet : String) (mdl : ModelM)
    (r c : Nat) (v : XlVal) : ModelM :=
  match v with
  | .vnone => mdl
  | .vstr s =>
    if pyStartsWith "=" s then
      let addr := cellAddr sheet r c
      { cells := dictInsert mdl.cells addr ⟨addr, .vnone, some s⟩
        formulae := dictInsert mdl.formulae addr s
        ranges := addRangeTerms mdl.ranges (terms s) }
    else
      let addr := cellAddr sheet r c
      { mdl with cells := dictInsert mdl.cells addr ⟨addr, .vstr s, none⟩ }
  | v =>
    let addr := cellAddr sheet r c
    { mdl with cells := dictInsert mdl.cells addr ⟨addr, v, none⟩ }

/-- The builder `build_model_from_workbook` from `src/app.py`: a single pass over every
sheet and every cell in iteration order, threading the model through
`processCell`.  `terms` abstracts `XLFormula(...).terms` (the third-party
formula parser); every theorem below holds for an arbitrary extractor. -/
def build_model_from_workbook (terms : String → List String) (wb : Workbook) :
    ModelM :=
  wb.foldl
    (fun mdl ws =>
      (sheetCoords ws).foldl
        (fun m rc => processCell terms ws.title m rc.1 rc.2 (ws.val rc.1 rc.2))
        mdl)
    ⟨[], [], []⟩

/-- Modelled from the spec: the third-party evaluator
(`xlcalculator.Evaluator.evaluate`, not part of this repository) restricted
to literal cells — "evaluating every literal (non-formula) cell by address
returns exactly the stored literal value".  Formula evaluation and unknown
addresses are outside the model and reported as evaluation errors. -/
def evaluateLiteral (mdl : ModelM) (addr : String) : Except String XlVal :=
  match dictGet mdl.cells addr with
  | none => .error ("Cell not found: " ++ addr)
  | some cell =>
    match cell.formulaText with
    | some _ => .error ("formula evaluation not modelled: " ++ addr)
    | none => .ok cell.value

/-! ### Helper lemmas -/

/-- The unwrap cascade is the identity on primitive scalars. -/
theorem unwrap_scalar {v : XlVal} (h : v.isScalar = true) :
    unwrap_excel_value v = .ok v := by
  cases v <;> simp [XlVal.isScalar] at h <;> rfl

theorem safe_eval_of_ok {r : Except String XlVal} {v : XlVal}
    (h : r.bind unwrap_excel_value = .ok v) : safe_eval r = v := by
  simp [safe_eval, h]

theorem safe_eval_of_error {r : Except String XlVal} {m : String}
    (h : r.bind unwrap_excel_value = .error m) :
    safe_eval r = .vstr ("Erro: " ++ m) := by
  simp [safe_eval, h]

theorem mem_pySortInsert {le : α → α → Bool} {a b : α} {l : List α} :
    b ∈ pySortInsert le a l ↔ b = a ∨ b ∈ l := by
  induction l with
  | nil => simp [pySortInsert]
  | cons c l ih =>
    by_cases h : le a c
    · simp [pySortInsert, h]
    · simp [pySortInsert, h, ih]
      tauto

theorem pySortInsert_perm (le : α → α → Bool) (a : α) (l : List α) :
    (pySortInsert le a l).Perm (a :: l) := by
  induction l with
  | nil => exact List.Perm.refl _
  | cons c l ih =>
    by_cases h : le a c
    · simp [pySortInsert, h]
    · simp only [pySortInsert, h, if_neg, Bool.false_eq_true, ite_false]
      exact (ih.cons c).trans (List.Perm.swap a c l)

theorem pySort_perm (le : α → α → Bool) (l : List α) :
    (pySort le l).Perm l := by
  induction l with
  | nil => exact List.Perm.refl _
  | cons a l ih =>
    exact (pySortInsert_perm le a (pySort le l)).trans (ih.cons a)

theorem pairwise_pySortInsert {le : α → α → Bool}
    (htrans : ∀ x y z, le x y = true → le y z = true → le x z = true)
    (htot : ∀ x y, (le x y || le y x) = true)
    {a : α} {l : List α} (h : l.Pairwise (fun x y => le x y = true)) :
    (pySortInsert le a l).Pairwise (fun x y => le x y = true) := by
  induction l with
  | nil => simp [pySortInsert]
  | cons c l ih =>
    rw [List.pairwise_cons] at h
    by_cases hac : le a c
    · have hstep : pySortInsert le a (c :: l) = a :: c :: l := by
        simp [pySortInsert, hac]
      rw [hstep]
      refine List.Pairwise.cons ?_ (List.Pairwise.cons h.1 h.2)
      intro b hb
      rcases List.mem_cons.mp hb with rfl | hb
      · exact hac
      · exact htrans a c b hac (h.1 b hb)
    · have hstep : pySortInsert le a (c :: l) = c :: pySortInsert le a l := by
        simp [pySortInsert, hac]
      rw [hstep]
      refine List.Pairwise.cons ?_ (ih h.2)
      intro b hb
      rcases mem_pySortInsert.mp hb with heq | hb
      · rw [heq]
        have := htot a c
        simp [hac] at this
        exact this
      · exact h.1 b hb

theorem pairwise_pySort {le : α → α → Bool}
    (htrans : ∀ x y z, le x y = true → le y z = true → le x z = true)
    (htot : ∀ x y, (le x y || le y x) = true) (l : List α) :
    (pySort le l).Pairwise (fun x y => le x y = true) := by
  induction l with
  | nil => simp [pySort]
  | cons a l ih => exact pairwise_pySortInsert htrans htot ih

theorem descLE_trans :
    ∀ x y z, descLE x y = true → descLE y z = true → descLE x z = true := by
  intro x y z
  simp only [descLE, Bool.or_eq_true, Bool.and_eq_true, beq_iff_eq,
    decide_eq_true_eq]
  omega

theorem descLE_total : ∀ x y, (descLE x y || descLE y x) = true := by
  intro x y
  simp only [descLE, Bool.or_eq_true, Bool.and_eq_true, beq_iff_eq,
    decide_eq_true_eq]
  omega

theorem mem_sheetCoords {ws : Sheet} {r c : Nat} :
    (r, c) ∈ sheetCoords ws ↔
      1 ≤ r ∧ r ≤ ws.maxRow ∧ 1 ≤ c ∧ c ≤ ws.maxCol := by
  simp only [sheetCoords, List.mem_product, List.mem_map, List.mem_range]
  constructor
  · rintro ⟨⟨x, hx, rfl⟩, ⟨y, hy, rfl⟩⟩
    omega
  · rintro ⟨h1, h2, h3, h4⟩
    exact ⟨⟨r - 1, by omega, by omega⟩, ⟨c - 1, by omega, by omega⟩⟩

theorem nodup_sheetCoords (ws : Sheet) : (sheetCoords ws).Nodup :=
  List.Nodup.product
    (List.Nodup.map (fun a b h => by omega) (List.nodup_range _))
    (List.Nodup.map (fun a b h => by omega) (List.nodup_range _))

theorem mkDesc_row (sheet_name : String) (ws : Sheet) (r c : Nat) :
    (mkDesc sheet_name ws r c).row = r := rfl

theorem mkDesc_col (sheet_name : String) (ws : Sheet) (r c : Nat) :
    (mkDesc sheet_name ws r c).col = c := rfl

theorem mem_descList {sheet_name : String} {ws : Sheet} {d : InputDescriptor} :
    d ∈ descList sheet_name ws ↔
      ∃ rc ∈ sheetCoords ws,
        is_probably_input_cell (ws.val rc.1 rc.2) (ws.fill rc.1 rc.2) = true ∧
        d = mkDesc sheet_name ws rc.1 rc.2 := by
  simp only [descList, List.mem_filterMap]
  constructor
  · rintro ⟨rc, hrc, hf⟩
    by_cases hq : is_probably_input_cell (ws.val rc.1 rc.2) (ws.fill rc.1 rc.2)
    · rw [if_pos hq] at hf
      exact ⟨rc, hrc, hq, (Option.some_inj.mp hf).symm⟩
    · rw [if_neg hq] at hf
      cases hf
  · rintro ⟨rc, hrc, hq, rfl⟩
    exact ⟨rc, hrc, by rw [if_pos hq]⟩

theorem nodup_descList (sheet_name : String) (ws : Sheet) :
    (descList sheet_name ws).Nodup := by
  refine List.Nodup.filterMap ?_ (nodup_sheetCoords ws)
  intro rc rc' d h h'
  simp only [Option.mem_def] at h h'
  by_cases hq : is_probably_input_cell (ws.val rc.1 rc.2) (ws.fill rc.1 rc.2)
  · rw [if_pos hq] at h
    by_cases hq' :
        is_probably_input_cell (ws.val rc'.1 rc'.2) (ws.fill rc'.1 rc'.2)
    · rw [if_pos hq'] at h'
      have hd := (Option.some_inj.mp h).trans (Option.some_inj.mp h').symm
      have hr := congrArg InputDescriptor.row hd
      have hc := congrArg InputDescriptor.col hd
      simp only [mkDesc_row, mkDesc_col] at hr hc
      exact Prod.ext hr hc
    · rw [if_neg hq'] at h'
      cases h'
  · rw [if_neg hq] at h
    cases h

/-- Facts the classification predicate guarantees about the cell value. -/
theorem is_probably_input_cell_facts {v : XlVal} {fill : Option FillM}
    (h : is_probably_input_cell v fill = true) :
    v ≠ .vnone ∧ v ≠ .vstr "" ∧ is_formula v = false := by
  cases v with
  | vnone => simp [is_probably_input_cell] at h
  | vstr s =>
    by_cases he : s.data.isEmpty
    · simp [is_probably_input_cell, he] at h
    · by_cases hf : pyStartsWith "=" s
      · simp [is_probably_input_cell, he, hf] at h
      · refine ⟨by simp, ?_, ?_⟩
        · intro heq
          cases heq
          simp at he
        · simpa [is_formula] using hf
  | vint n => exact ⟨by simp, by simp, rfl⟩
  | vfloat q => exact ⟨by simp, by simp, rfl⟩
  | vbool b => exact ⟨by simp, by simp, rfl⟩
  | expr b => exact ⟨by simp, by simp, rfl⟩
  | exprRaise m => exact ⟨by simp, by simp, rfl⟩
  | array l => exact ⟨by simp, by simp, rfl⟩
  | wrapped w => exact ⟨by simp, by simp, rfl⟩

/-! ### Builder traversal lemmas -/

/-- One traversal entry of the builder pass: sheet title, row, column and
the raw cell value there. -/
abbrev Entry := String × Nat × Nat × XlVal

/-- The canonical address of a traversal entry. -/
def entryAddr (e : Entry) : String := cellAddr e.1 e.2.1 e.2.2.1

/-- The builder loop body as a fold step over traversal entries. -/
def entryStep (terms : String → List String) (m : ModelM) (e : Entry) : ModelM :=
  processCell terms e.1 m e.2.1 e.2.2.1 e.2.2.2

/-- The full traversal of the builder: all sheets, in order, each in
row-major cell order. -/
def wbEntries (wb : Workbook) : List Entry :=
  wb.flatMap (fun ws =>
    (sheetCoords ws).map (fun rc => (ws.title, rc.1, rc.2, ws.val rc.1 rc.2)))

/-- The addresses of every cell position of the workbook, in traversal
order. -/
def wbAddrList (wb : Workbook) : List String := (wbEntries wb).map entryAddr

theorem build_model_eq_foldl (terms : String → List String) (wb : Workbook) :
    build_model_from_workbook terms wb =
      (wbEntries wb).foldl (entryStep terms) ⟨[], [], []⟩ := by
  suffices h : ∀ (wb : Workbook) (init : ModelM),
      wb.foldl (fun mdl ws => (sheetCoords ws).foldl
        (fun m rc => processCell terms ws.title m rc.1 rc.2 (ws.val rc.1 rc.2))
        mdl) init =
      (wbEntries wb).foldl (entryStep terms) init from h wb _
  intro wb
  induction wb with
  | nil => intro init; rfl
  | cons ws rest ih =>
    intro init
    rw [List.foldl_cons, ih]
    show _ = (((sheetCoords ws).map _) ++ wbEntries rest).foldl (entryStep terms) init
    rw [List.foldl_append, List.foldl_map]
    rfl

/-- The `XLCellM` record the builder stores for a non-`None` entry. -/
def entryCell (e : Entry) : XLCellM :=
  match e.2.2.2 with
  | .vstr s =>
    if pyStartsWith "=" s then ⟨entryAddr e, .vnone, some s⟩
    else ⟨entryAddr e, .vstr s, none⟩
  | v => ⟨entryAddr e, v, none⟩

theorem entryStep_cells_none {e : Entry} (terms : String → List String)
    (m : ModelM) (h : e.2.2.2 = .vnone) : (entryStep terms m e).cells = m.cells := by
  rcases e with ⟨t, r, c, v⟩
  cases v <;> first
    | rfl
    | exact absurd h (by simp)

theorem entryStep_cells_some {e : Entry} (terms : String → List String)
    (m : ModelM) (h : e.2.2.2 ≠ .vnone) :
    (entryStep terms m e).cells = dictInsert m.cells (entryAddr e) (entryCell e) := by
  rcases e with ⟨t, r, c, v⟩
  cases v with
  | vnone => exact absurd rfl h
  | vstr s =>
    by_cases hf : pyStartsWith "=" s
    · simp [entryStep, processCell, entryCell, entryAddr, hf]
    · simp [entryStep, processCell, entryCell, entryAddr, hf]
  | _ => rfl

theorem dictGet_nil {α : Type} (k : String) :
    dictGet ([] : List (String × α)) k = none := rfl

theorem dictGet_insert_self {α : Type} (d : List (String × α)) (k : String)
    (v : α) : dictGet (dictInsert d k v) k = some v := by
  induction d with
  | nil => simp [dictInsert, dictGet]
  | cons p rest ih =>
    by_cases h : p.1 == k
    · simp [dictInsert, h, dictGet]
    · simp only [dictInsert, h, Bool.false_eq_true, ite_false]
      rw [dictGet, List.find?_cons_of_neg _ (by simpa using h)]
      exact ih

theorem dictGet_insert_ne {α : Type} (d : List (String × α)) {k k' : String}
    (v : α) (h : k' ≠ k) : dictGet (dictInsert d k v) k' = dictGet d k' := by
  induction d with
  | nil =>
    simp [dictInsert, dictGet, List.find?, show (k == k') = false by
      simpa using fun heq => h heq.symm]
  | cons p rest ih =>
    by_cases hp : p.1 == k
    · have hpk : p.1 = k := by simpa using hp
      have h1 : (k == k') = false := by simpa using fun heq => h heq.symm
      have h2 : (p.1 == k') = false := by rw [hpk]; exact h1
      simp only [dictInsert, hp, ite_true]
      rw [dictGet, dictGet]
      simp only [List.find?, h1, h2, cond_false]
    · simp only [dictInsert, hp, Bool.false_eq_true, ite_false]
      by_cases hk' : p.1 == k'
      · rw [dictGet, dictGet]
        simp only [List.find?, hk', cond_true]
      · have hk'' : (p.1 == k') = false := by simpa using hk'
        rw [dictGet, dictGet]
        simp only [List.find?, hk'', cond_false]
        exact ih

theorem foldl_cells_skip (terms : String → List String) (es : List Entry)
    (m : ModelM) (a : String)
    (h : ∀ e ∈ es, entryAddr e = a → e.2.2.2 = .vnone) :
    dictGet (es.foldl (entryStep terms) m).cells a = dictGet m.cells a := by
  induction es generalizing m with
  | nil => rfl
  | cons e es ih =>
    rw [List.foldl_cons, ih _ (fun e' he' => h e' (List.mem_cons_of_mem _ he'))]
    by_cases hv : e.2.2.2 = .vnone
    · rw [entryStep_cells_none terms m hv]
    · have hne : entryAddr e ≠ a := fun heq => hv (h e (List.mem_cons_self _ _) heq)
      rw [entryStep_cells_some terms m hv, dictGet_insert_ne _ _ hne.symm]

theorem foldl_cells_write (terms : String → List String) (es₁ es₂ : List Entry)
    (e : Entry) (m : ModelM) (hv : e.2.2.2 ≠ .vnone)
    (h2 : ∀ e' ∈ es₂, entryAddr e' ≠ entryAddr e) :
    dictGet (((es₁ ++ e :: es₂).foldl (entryStep terms) m)).cells (entryAddr e) =
      some (entryCell e) := by
  rw [List.foldl_append, List.foldl_cons,
    foldl_cells_skip terms es₂ _ _ (fun e' he' heq => absurd heq (h2 e' he')),
    entryStep_cells_some terms _ hv, dictGet_insert_self]

/-- The range-shaped raw material an entry contributes: the reference terms
of the formula when the value is a formula string, nothing otherwise. -/
def entryRangeTerms (terms : String → List String) (e : Entry) : List String :=
  match e.2.2.2 with
  | .vstr s => if pyStartsWith "=" s then terms s else []
  | _ => []

theorem entryStep_ranges (terms : String → List String) (m : ModelM) (e : Entry) :
    (entryStep terms m e).ranges = addRangeTerms m.ranges (entryRangeTerms terms e) := by
  rcases e with ⟨t, r, c, v⟩
  cases v with
  | vstr s =>
    by_cases hf : pyStartsWith "=" s
    · simp [entryStep, processCell, entryRangeTerms, hf]
    · simp [entryStep, processCell, entryRangeTerms, hf, addRangeTerms]
  | _ => rfl

theorem addRangeTerms_cons {rs : List String} {t₀ : String} {ts : List String} :
    addRangeTerms rs (t₀ :: ts) =
      addRangeTerms
        (if pyContainsChar ':' t₀ && !rs.contains t₀ then rs ++ [t₀] else rs) ts := rfl

theorem mem_addRangeTerms {t : String} {rs ts : List String} :
    t ∈ addRangeTerms rs ts ↔
      t ∈ rs ∨ (pyContainsChar ':' t = true ∧ t ∈ ts) := by
  induction ts generalizing rs with
  | nil => simp [addRangeTerms]
  | cons t₀ ts ih =>
    rw [addRangeTerms_cons, ih]
    by_cases hc : pyContainsChar ':' t₀
    · by_cases hm : rs.contains t₀
      · have hmem : t₀ ∈ rs := by simpa using hm
        simp only [hc, hm, Bool.not_true, Bool.and_false, ite_false]
        constructor
        · rintro (h | ⟨h1, h2⟩)
          · exact Or.inl h
          · exact Or.inr ⟨h1, List.mem_cons_of_mem _ h2⟩
        · rintro (h | ⟨h1, h2⟩)
          · exact Or.inl h
          · rcases List.mem_cons.mp h2 with rfl | h2
            · exact Or.inl hmem
            · exact Or.inr ⟨h1, h2⟩
      · simp only [hc, hm, Bool.not_false, Bool.and_true, ite_true]
        constructor
        · rintro (h | ⟨h1, h2⟩)
          · rcases List.mem_append.mp h with h | h
            · exact Or.inl h
            · rcases List.mem_singleton.mp h with rfl
              exact Or.inr ⟨hc, List.mem_cons_self _ _⟩
          · exact Or.inr ⟨h1, List.mem_cons_of_mem _ h2⟩
        · rintro (h | ⟨h1, h2⟩)
          · exact Or.inl (List.mem_append.mpr (Or.inl h))
          · rcases List.mem_cons.mp h2 with rfl | h2
            · exact Or.inl (List.mem_append.mpr (Or.inr (List.mem_singleton.mpr rfl)))
            · exact Or.inr ⟨h1, h2⟩
    · have hc' : pyContainsChar ':' t₀ = false := by simpa using hc
      simp only [hc', Bool.false_and, ite_false]
      constructor
      · rintro (h | ⟨h1, h2⟩)
        · exact Or.inl h
        · exact Or.inr ⟨h1, List.mem_cons_of_mem _ h2⟩
      · rintro (h | ⟨h1, h2⟩)
        · exact Or.inl h
        · rcases List.mem_cons.mp h2 with rfl | h2
          · rw [hc'] at h1
            cases h1
          · exact Or.inr ⟨h1, h2⟩

theorem nodup_addRangeTerms {rs ts : List String} (h : rs.Nodup) :
    (addRangeTerms rs ts).Nodup := by
  induction ts generalizing rs with
  | nil => exact h
  | cons t₀ ts ih =>
    rw [addRangeTerms_cons]
    apply ih
    by_cases hc : pyContainsChar ':' t₀ && !rs.contains t₀
    · rw [if_pos hc]
      have hnm : t₀ ∉ rs := by
        intro hmem
        rw [Bool.and_eq_true, Bool.not_eq_true'] at hc
        have hcontra : rs.contains t₀ = true := by simpa using hmem
        rw [hc.2] at hcontra
        cases hcontra
      exact List.Nodup.append h (List.nodup_singleton t₀)
        (by simpa [List.disjoint_singleton] using hnm)
    · rw [if_neg hc]
      exact h

theorem foldl_ranges_mem (terms : String → List String) (es : List Entry)
    (m : ModelM) (t : String) :
    t ∈ (es.foldl (entryStep terms) m).ranges ↔
      t ∈ m.ranges ∨ (pyContainsChar ':' t = true ∧
        ∃ e ∈ es, t ∈ entryRangeTerms terms e) := by
  induction es generalizing m with
  | nil => simp
  | cons e es ih =>
    rw [List.foldl_cons, ih, entryStep_ranges, mem_addRangeTerms]
    constructor
    · rintro ((h | ⟨h1, h2⟩) | ⟨h1, e', he', h2⟩)
      · exact Or.inl h
      · exact Or.inr ⟨h1, e, List.mem_cons_self _ _, h2⟩
      · exact Or.inr ⟨h1, e', List.mem_cons_of_mem _ he', h2⟩
    · rintro (h | ⟨h1, e', he', h2⟩)
      · exact Or.inl (Or.inl h)
      · rcases List.mem_cons.mp he' with rfl | he'
        · exact Or.inl (Or.inr ⟨h1, h2⟩)
        · exact Or.inr ⟨h1, e', he', h2⟩

theorem foldl_ranges_nodup (terms : String → List String) (es : List Entry)
    (m : ModelM) (h : m.ranges.Nodup) :
    ((es.foldl (entryStep terms) m).ranges).Nodup := by
  induction es generalizing m with
  | nil => exact h
  | cons e es ih =>
    rw [List.foldl_cons]
    exact ih _ (by rw [entryStep_ranges]; exact nodup_addRangeTerms h)

theorem mem_entryRangeTerms {terms : String → List String} {t : String}
    {e : Entry} :
    t ∈ entryRangeTerms terms e ↔
      ∃ s, e.2.2.2 = .vstr s ∧ pyStartsWith "=" s = true ∧ t ∈ terms s := by
  rcases e with ⟨ti, r, c, v⟩
  cases v with
  | vstr s =>
    by_cases hf : pyStartsWith "=" s <;> simp [entryRangeTerms, hf]
  | _ => simp [entryRangeTerms]

theorem mem_wbEntries {wb : Workbook} {e : Entry} :
    e ∈ wbEntries wb ↔
      ∃ ws ∈ wb, ∃ rc ∈ sheetCoords ws,
        e = (ws.title, rc.1, rc.2, ws.val rc.1 rc.2) := by
  simp only [wbEntries, List.mem_flatMap, List.mem_map]
  constructor
  · rintro ⟨ws, hws, rc, hrc, rfl⟩
    exact ⟨ws, hws, rc, hrc, rfl⟩
  · rintro ⟨ws, hws, rc, hrc, rfl⟩
    exact ⟨ws, hws, rc, hrc, rfl⟩

/-- Lookup in the built cell map, assuming globally distinct cell addresses
(true of real workbooks: distinct sheet titles and distinct coordinates): a
`None`-valued position has no entry; any other position is stored as the
record `processCell` writes. -/
theorem build_cells_lookup (terms : String → List String) (wb : Workbook)
    (hnd : (wbAddrList wb).Nodup) (ws : Sheet) (hws : ws ∈ wb) (r c : Nat)
    (hrc : (r, c) ∈ sheetCoords ws) :
    (ws.val r c = .vnone →
      dictGet (build_model_from_workbook terms wb).cells (cellAddr ws.title r c) =
        none) ∧
    (ws.val r c ≠ .vnone →
      dictGet (build_model_from_workbook terms wb).cells (cellAddr ws.title r c) =
        some (entryCell (ws.title, r, c, ws.val r c))) := by
  have he0 : ((ws.title, r, c, ws.val r c) : Entry) ∈ wbEntries wb :=
    mem_wbEntries.mpr ⟨ws, hws, (r, c), hrc, rfl⟩
  have hinj := List.inj_on_of_nodup_map hnd
  have haddr : entryAddr (ws.title, r, c, ws.val r c) = cellAddr ws.title r c := rfl
  rw [build_model_eq_foldl]
  constructor
  · intro hv
    rw [foldl_cells_skip terms _ _ _ ?_, dictGet_nil]
    intro e he heq
    have : e = (ws.title, r, c, ws.val r c) :=
      hinj he he0 (by rw [heq, haddr])
    rw [this]
    exact hv
  · intro hv
    rcases List.append_of_mem he0 with ⟨es₁, es₂, heq⟩
    have hnd' : (wbEntries wb).Nodup := List.Nodup.of_map _ hnd
    rw [heq] at hnd'
    have hnotin : ((ws.title, r, c, ws.val r c) : Entry) ∉ es₂ :=
      (List.nodup_cons.mp (List.Nodup.of_append_right hnd')).1
    have h2 : ∀ e' ∈ es₂, entryAddr e' ≠ entryAddr (ws.title, r, c, ws.val r c) := by
      intro e' he' hcontra
      have he'mem : e' ∈ wbEntries wb := by
        rw [heq]
        exact List.mem_append.mpr (Or.inr (List.mem_cons_of_mem _ he'))
      have : e' = (ws.title, r, c, ws.val r c) := hinj he'mem he0 hcontra
      rw [this] at he'
      exact hnotin he'
    rw [← haddr, heq]
    exact foldl_cells_write terms es₁ es₂ _ _ hv h2

/-! ### Claim theorems -/

/-- Claim C1: `safe_eval` never raises — whenever the underlying evaluation
or the result-unwrapping raises with message `m`, it returns the diagnostic
string `"Erro: " ++ m`; and each cell of a batch is evaluated and reported
independently of the failing one (here: a sibling whose own evaluation
unwraps to `v` still reports `v`, and the batch is the list of the per-cell
results). -/
theorem safe_eval_error_isolation (ev : String → Except String XlVal)
    (a b : String) (m : String)
    (ha : (ev a).bind unwrap_excel_value = .error m) :
    safe_eval (ev a) = .vstr ("Erro: " ++ m) ∧
    (∀ v, (ev b).bind unwrap_excel_value = .ok v → safe_eval (ev b) = v) ∧
    evalBatch ev [a, b] = [.vstr ("Erro: " ++ m), safe_eval (ev b)] := by
  refine ⟨safe_eval_of_error ha, fun v hv => safe_eval_of_ok hv, ?_⟩
  simp [evalBatch, safe_eval_of_error ha]

/-- An evaluator fixture: address `"K1"` fails with message `"boom"`, every
other address evaluates to the integer `7`. -/
def evFixture : String → Except String XlVal :=
  fun s => if s = "K1" then .error "boom" else .ok (.vint 7)

theorem safe_eval_error_isolation_witness :
    safe_eval (evFixture "K1") = .vstr "Erro: boom" ∧
    safe_eval (evFixture "K2") = .vint 7 := by
  have h := safe_eval_error_isolation evFixture "K1" "K2" "boom" rfl
  exact ⟨h.1, h.2.1 (.vint 7) rfl⟩

/-- Claim C2: `IF_SAFE` invokes only the branch selected by the fully
dereferenced boolean test: the result never depends on the untaken branch (in
either direction of the test), and, in particular, with a true test and a
false branch whose invocation would raise, the dereferenced result of the
true branch is still returned. -/
theorem IF_SAFE_short_circuit (t c : XlVal)
    (hc : unwrap_excel_value t = .ok c) :
    (pyBool c = true →
      (∀ bt bf bf', IF_SAFE t bt bf = IF_SAFE t bt bf') ∧
      (∀ bt v m, (runBranch bt).bind unwrap_excel_value = .ok v →
        IF_SAFE t bt (.callable (.error m)) = .ok v)) ∧
    (pyBool c = false →
      ∀ bt bt' bf, IF_SAFE t bt bf = IF_SAFE t bt' bf) := by
  constructor
  · intro htrue
    constructor
    · intro bt bf bf'
      simp [IF_SAFE, hc, htrue]
    · intro bt v m hv
      simp only [IF_SAFE, hc, htrue, if_pos]
      cases hrun : runBranch bt with
      | error e => simp [hrun, Except.bind] at hv
      | ok res => simpa [hrun] using hv
  · intro hfalse bt bt' bf
    simp [IF_SAFE, hc, hfalse]

theorem IF_SAFE_short_circuit_witness :
    IF_SAFE (.vbool true) (.plain (.vint 1)) (.callable (.error "boom")) =
      .ok (.vint 1) := by
  have h := IF_SAFE_short_circuit (.vbool true) (.vbool true) rfl
  exact (h.1 rfl).2 (.plain (.vint 1)) (.vint 1) "boom" rfl

/-- Claim C6: the result-unwrapping cascade is idempotent on primitive
scalars — on an `int`, `float`, `str` or `bool` it returns the value
unchanged, so applying it twice equals applying it once — and unwrapping an
empty array yields `None`. -/
theorem unwrap_idempotent_on_scalars :
    (∀ v : XlVal, v.isScalar = true →
      unwrap_excel_value v = .ok v ∧
      (unwrap_excel_value v).bind unwrap_excel_value = unwrap_excel_value v) ∧
    unwrap_excel_value (.array []) = .ok .vnone := by
  refine ⟨fun v hv => ⟨unwrap_scalar hv, ?_⟩, rfl⟩
  rw [unwrap_scalar hv]
  exact unwrap_scalar hv

theorem unwrap_idempotent_on_scalars_witness :
    unwrap_excel_value (.vint 3) = .ok (.vint 3) ∧
    (unwrap_excel_value (.vint 3)).bind unwrap_excel_value =
      unwrap_excel_value (.vint 3) :=
  unwrap_idempotent_on_scalars.1 (.vint 3) rfl

/-- Shape of `coerce_value` on a string argument, with the locale transform
named. -/
theorem coerce_value_vstr (s : String) :
    coerce_value (.vstr s) =
      (if pyLower (pyStrip s) == "true" || pyLower (pyStrip s) == "false" then
        .vbool (pyLower (pyStrip s) == "true")
      else if (coerceTransform (pyStrip s)).data.any Char.isDigit then
        match pyFloat (coerceTransform (pyStrip s)) with
        | some q => .vfloat q
        | none => .vstr s
      else .vstr s) := rfl

/-- Claim C5: the documented coercion examples hold
(`"1.000,00" ↦ 1000.0`, `"1000" ↦ 1000.0`, `"true" ↦ true`, `"hello"`
unchanged, `None` unchanged); and in general (away from the boolean
keywords) a numeric parse is attempted only when the transformed string
contains a digit, parse failure returns the input untouched, and a numeric
result only ever arises from a successful parse of a digit-containing
transformed string. -/
theorem coerce_value_spec :
    coerce_value (.vstr "1.000,00") = .vfloat 1000 ∧
    coerce_value (.vstr "1000") = .vfloat 1000 ∧
    coerce_value (.vstr "true") = .vbool true ∧
    coerce_value (.vstr "hello") = .vstr "hello" ∧
    coerce_value .vnone = .vnone ∧
    (∀ s : String,
      (pyLower (pyStrip s) == "true" || pyLower (pyStrip s) == "false") = false →
      ((coerceTransform (pyStrip s)).data.any Char.isDigit = false →
        coerce_value (.vstr s) = .vstr s) ∧
      (pyFloat (coerceTransform (pyStrip s)) = none →
        coerce_value (.vstr s) = .vstr s)) ∧
    (∀ (s : String) (q : Rat), coerce_value (.vstr s) = .vfloat q →
      (coerceTransform (pyStrip s)).data.any Char.isDigit = true ∧
      pyFloat (coerceTransform (pyStrip s)) = some q) := by
  have h1 : coerce_value (.vstr "1.000,00") = .vfloat (mkRat 100000 100) := rfl
  have h2 : coerce_value (.vstr "1000") = .vfloat (mkRat 1000 1) := rfl
  refine ⟨?_, ?_, rfl, rfl, rfl, ?_, ?_⟩
  · rw [h1]
    exact congrArg XlVal.vfloat (by rw [Rat.mkRat_eq_div]; norm_num)
  · rw [h2]
    exact congrArg XlVal.vfloat (by rw [Rat.mkRat_eq_div]; norm_num)
  · intro s hkw
    constructor
    · intro hnd
      rw [coerce_value_vstr, hkw]
      simp [hnd]
    · intro hpf
      rw [coerce_value_vstr, hkw]
      by_cases hd : (coerceTransform (pyStrip s)).data.any Char.isDigit
      · simp [hd, hpf]
      · simp [hd]
  · intro s q h
    rw [coerce_value_vstr] at h
    by_cases hkw :
        (pyLower (pyStrip s) == "true" || pyLower (pyStrip s) == "false") = true
    · rw [hkw] at h
      simp at h
    · rw [Bool.not_eq_true] at hkw
      rw [hkw] at h
      by_cases hd : (coerceTransform (pyStrip s)).data.any Char.isDigit
      · refine ⟨hd, ?_⟩
        simp only [hd, if_true] at h
        cases hpf : pyFloat (coerceTransform (pyStrip s)) with
        | none => rw [hpf] at h; simp at h
        | some q' => rw [hpf] at h; simp at h; rw [h]
      · rw [Bool.not_eq_true] at hd
        rw [hd] at h
        simp at h

theorem coerce_value_spec_witness :
    coerce_value (.vstr "x,y") = .vstr "x,y" ∧
    coerce_value (.vstr "9,9x") = .vstr "9,9x" :=
  ⟨(coerce_value_spec.2.2.2.2.2.1 "x,y" rfl).1 rfl,
   (coerce_value_spec.2.2.2.2.2.1 "9,9x" rfl).2 rfl⟩

/-- Claim C7: `discover_inputs` errors exactly when the requested sheet name
is absent from the workbook's sheet names; the error carries the message
built from the full list of available sheet names; an existing sheet never
produces this error. -/
theorem discover_inputs_sheet_error (wb : Workbook) (name : String) :
    ((∃ m, discover_inputs wb name = .error m) ↔ name ∉ wb.map Sheet.title) ∧
    (name ∉ wb.map Sheet.title →
      discover_inputs wb name = .error (sheetNotFoundMsg name (wb.map Sheet.title))) ∧
    (name ∈ wb.map Sheet.title → ∃ l, discover_inputs wb name = .ok l) := by
  have hiff : wb.find? (fun ws => ws.title == name) = none ↔
      name ∉ wb.map Sheet.title := by
    rw [List.find?_eq_none]
    simp [List.mem_map]
  refine ⟨⟨?_, ?_⟩, ?_, ?_⟩
  · rintro ⟨m, hm⟩
    cases hfind : wb.find? (fun ws => ws.title == name) with
    | none => exact hiff.mp hfind
    | some ws => rw [discover_inputs, hfind] at hm; cases hm
  · intro habs
    exact ⟨_, by rw [discover_inputs, hiff.mpr habs]⟩
  · intro habs
    rw [discover_inputs, hiff.mpr habs]
  · intro hmem
    cases hfind : wb.find? (fun ws => ws.title == name) with
    | none => exact absurd (hiff.mp hfind) (not_not_intro hmem)
    | some ws => exact ⟨_, by rw [discover_inputs, hfind]⟩

/-- A one-sheet fixture workbook whose only sheet is titled `"S"` and is
entirely empty. -/
def sheetA : Sheet := ⟨"S", 1, 1, fun _ _ => .vnone, fun _ _ => none⟩

theorem discover_inputs_sheet_error_witness :
    discover_inputs [sheetA] "X" = .error (sheetNotFoundMsg "X" ["S"]) ∧
    ∃ l, discover_inputs [sheetA] "S" = .ok l :=
  ⟨(discover_inputs_sheet_error [sheetA] "X").2.1 (by decide),
   (discover_inputs_sheet_error [sheetA] "S").2.2 (by decide)⟩

/-- Claim C4: `discover_inputs`, on an existing sheet, returns exactly one
descriptor per cell that is non-empty, non-formula and solid-theme-7-filled
(membership of the descriptor of the cell is equivalent to the classification
predicate, and the output has no duplicates); it contains no descriptor for
a formula or empty cell; and the output is sorted ascending by
`(row, col)`.  (The function is pure, so repeated calls on the unchanged
workbook are identical by definition.) -/
theorem discover_inputs_classification
    (wb : Workbook) (name : String) (ws : Sheet) (l : List InputDescriptor)
    (hws : wb.find? (fun s => s.title == name) = some ws)
    (hl : discover_inputs wb name = .ok l) :
    (∀ r c, 1 ≤ r → r ≤ ws.maxRow → 1 ≤ c → c ≤ ws.maxCol →
      (mkDesc name ws r c ∈ l ↔
        is_probably_input_cell (ws.val r c) (ws.fill r c) = true)) ∧
    (∀ d ∈ l, ws.val d.row d.col ≠ .vnone ∧ ws.val d.row d.col ≠ .vstr "" ∧
      is_formula (ws.val d.row d.col) = false ∧
      is_probably_input_cell (ws.val d.row d.col) (ws.fill d.row d.col) = true) ∧
    List.Pairwise (fun d e => descLE d e = true) l ∧ l.Nodup := by
  rw [discover_inputs, hws] at hl
  have hl' : l = pySort descLE (descList name ws) := (Except.ok.inj hl).symm
  subst hl'
  have hperm := pySort_perm descLE (descList name ws)
  refine ⟨?_, ?_, pairwise_pySort descLE_trans descLE_total _,
    (hperm.nodup_iff).mpr (nodup_descList name ws)⟩
  · intro r c h1 h2 h3 h4
    rw [hperm.mem_iff, mem_descList]
    constructor
    · rintro ⟨rc, hrc, hq, heq⟩
      have hr := congrArg InputDescriptor.row heq
      have hc := congrArg InputDescriptor.col heq
      simp only [mkDesc_row, mkDesc_col] at hr hc
      rw [hr, hc]
      exact hq
    · intro hq
      exact ⟨(r, c), mem_sheetCoords.mpr ⟨h1, h2, h3, h4⟩, hq, rfl⟩
  · intro d hd
    rcases mem_descList.mp (hperm.mem_iff.mp hd) with ⟨rc, hrc, hq, rfl⟩
    rcases is_probably_input_cell_facts hq with ⟨hn, he, hf⟩
    simp only [mkDesc_row, mkDesc_col]
    exact ⟨hn, he, hf, hq⟩

/-- The input-marking fill: solid pattern, theme-indexed foreground, theme
slot 7. -/
def inputFill : Option FillM := some ⟨some "solid", some ⟨"theme", some 7⟩⟩

/-- A fixture sheet: `C1` is a styled literal input whose row-1 label cell
`B1` holds the integer `0`; `A2` is a styled formula cell (excluded); `C2` is
a styled literal input whose label cell `B2` holds `" lbl "`; everything else
is empty. -/
def sheetB : Sheet where
  title := "S"
  maxRow := 2
  maxCol := 3
  val := fun r c =>
    if r = 1 && c = 3 then .vint 5
    else if r = 1 && c = 2 then .vint 0
    else if r = 2 && c = 1 then .vstr "=A1+B1"
    else if r = 2 && c = 2 then .vstr " lbl "
    else if r = 2 && c = 3 then .vstr "x"
    else .vnone
  fill := fun r c =>
    if (r = 1 && c = 3) || (r = 2 && c = 1) || (r = 2 && c = 3) then inputFill
    else none

theorem discover_inputs_classification_witness :
    (mkDesc "S" sheetB 1 3 ∈ pySort descLE (descList "S" sheetB) ↔
      is_probably_input_cell (sheetB.val 1 3) (sheetB.fill 1 3) = true) ∧
    List.Pairwise (fun d e => descLE d e = true)
      (pySort descLE (descList "S" sheetB)) := by
  have h := discover_inputs_classification [sheetB] "S" sheetB
    (pySort descLE (descList "S" sheetB)) rfl rfl
  exact ⟨h.1 1 3 (by decide) (by decide) (by decide) (by decide), h.2.2.1⟩

/-- Claim C9 (amended): the label of each discovered descriptor is the
trimmed string form of the column-B cell of its row when that value is
truthy, and the canonical address of the cell itself otherwise (Python
evaluates `if label:` by
truthiness, so a present-but-falsy `B` value such as `0` also falls back to
the address). -/
theorem discover_inputs_label_rule
    (wb : Workbook) (name : String) (ws : Sheet) (l : List InputDescriptor)
    (hws : wb.find? (fun s => s.title == name) = some ws)
    (hl : discover_inputs wb name = .ok l) :
    ∀ d ∈ l, d.label =
      if pyBool (ws.val d.row 2) then pyStrip (pyStr (ws.val d.row 2))
      else cellAddr name d.row d.col := by
  rw [discover_inputs, hws] at hl
  have hl' : l = pySort descLE (descList name ws) := (Except.ok.inj hl).symm
  subst hl'
  intro d hd
  rcases mem_descList.mp ((pySort_perm descLE _).mem_iff.mp hd)
    with ⟨rc, hrc, hq, rfl⟩
  rfl

theorem discover_inputs_label_rule_witness :
    (⟨"lbl", "S!C2", .vstr "x", 2, 3⟩ : InputDescriptor).label =
      if pyBool (sheetB.val 2 2) then pyStrip (pyStr (sheetB.val 2 2))
      else cellAddr "S" 2 3 := by
  have h := discover_inputs_label_rule [sheetB] "S" sheetB
    (pySort descLE (descList "S" sheetB)) rfl rfl
  have hmem : (⟨"lbl", "S!C2", .vstr "x", 2, 3⟩ : InputDescriptor) ∈
      pySort descLE (descList "S" sheetB) := by
    have hcomp : pySort descLE (descList "S" sheetB) =
        [⟨"S!C1", "S!C1", .vint 5, 1, 3⟩, ⟨"lbl", "S!C2", .vstr "x", 2, 3⟩] := rfl
    rw [hcomp]
    exact List.mem_cons_of_mem _ (List.mem_cons_self _ _)
  exact h _ hmem

/-- Claim C9, counterexample to the claim as stated: in `sheetB`, the input
cell `C1` has a label cell `B1` whose value `0` is present (not `None`), yet
the returned label is the own-cell address `"S!C1"`, not the trimmed
string form `"0"` of the `B1` value. -/
theorem discover_inputs_label_claim_cex :
    sheetB.val 1 2 = .vint 0 ∧
    (XlVal.vint 0 ≠ .vnone) ∧
    discover_inputs [sheetB] "S" =
      .ok [⟨"S!C1", "S!C1", .vint 5, 1, 3⟩, ⟨"lbl", "S!C2", .vstr "x", 2, 3⟩] ∧
    pyStrip (pyStr (sheetB.val 1 2)) = "0" ∧
    ("S!C1" : String) ≠ "0" :=
  ⟨rfl, fun h => XlVal.noConfusion h, rfl, rfl, by decide⟩

/-- Claim C8: after the build, the range map of the model has a key exactly for
those formula reference terms containing the range separator `":"`
(quantified over an arbitrary term extractor), with no duplicate keys no
matter how many formulas mention a term, and never a key for a separator-free
single-cell reference term. -/
theorem build_ranges_spec (terms : String → List String) (wb : Workbook) :
    (build_model_from_workbook terms wb).ranges.Nodup ∧
    ∀ t, t ∈ (build_model_from_workbook terms wb).ranges ↔
      (pyContainsChar ':' t = true ∧
       ∃ ws ∈ wb, ∃ rc ∈ sheetCoords ws, ∃ s,
         ws.val rc.1 rc.2 = .vstr s ∧ pyStartsWith "=" s = true ∧
         t ∈ terms s) := by
  rw [build_model_eq_foldl]
  refine ⟨foldl_ranges_nodup terms _ _ List.nodup_nil, fun t => ?_⟩
  rw [foldl_ranges_mem]
  constructor
  · rintro (h | ⟨h1, e, he, h2⟩)
    · cases h
    · rcases mem_entryRangeTerms.mp h2 with ⟨s, hs, hf, ht⟩
      rcases mem_wbEntries.mp he with ⟨ws, hws, rc, hrc, rfl⟩
      exact ⟨h1, ws, hws, rc, hrc, s, hs, hf, ht⟩
  · rintro ⟨h1, ws, hws, rc, hrc, s, hs, hf, ht⟩
    exact Or.inr ⟨h1, (ws.title, rc.1, rc.2, ws.val rc.1 rc.2),
      mem_wbEntries.mpr ⟨ws, hws, rc, hrc, rfl⟩,
      mem_entryRangeTerms.mpr ⟨s, hs, hf, ht⟩⟩

/-- A fixed reference-term extractor standing in for the formula parser on
the fixture formula. -/
def rangeTermsFixture : String → List String := fun _ => ["A1", "A1:A3", "B1"]

theorem build_ranges_spec_witness :
    "A1:A3" ∈ (build_model_from_workbook rangeTermsFixture [sheetB]).ranges ∧
    "B9:B12" ∉ (build_model_from_workbook rangeTermsFixture [sheetB]).ranges := by
  have h := build_ranges_spec rangeTermsFixture [sheetB]
  constructor
  · exact (h.2 "A1:A3").mpr ⟨rfl, sheetB, List.mem_cons_self _ _, (2, 1),
      by decide, "=A1+B1", rfl, rfl, by decide⟩
  · intro hmem
    rcases (h.2 "B9:B12").mp hmem with ⟨_, ws, _, rc, _, s, _, _, ht⟩
    have hno : ("B9:B12" : String) ∉ (["A1", "A1:A3", "B1"] : List String) := by
      decide
    exact hno ht

/-- The record the builder stores for a literal (non-formula) entry. -/
theorem entryCell_literal {ti : String} {r c : Nat} {v : XlVal}
    (hnf : is_formula v = false) :
    entryCell (ti, r, c, v) = ⟨cellAddr ti r c, v, none⟩ := by
  cases v with
  | vstr s =>
    have hf : pyStartsWith "=" s = false := by simpa [is_formula] using hnf
    simp [entryCell, entryAddr, cellAddr, hf]
  | _ => rfl

/-- Claim C10: the builder skips a cell exactly when its raw value is `None`
— under the (real-workbook) assumption that all canonical cell addresses are
distinct, a `None` cell leaves no entry in the cell map, while every other
non-formula value, the empty string `""` included, is stored as a literal
cell with that value and is addressable by its canonical address. -/
theorem build_skips_iff_none (terms : String → List String) (wb : Workbook)
    (hnd : (wbAddrList wb).Nodup) (ws : Sheet) (hws : ws ∈ wb) (r c : Nat)
    (hrc : (r, c) ∈ sheetCoords ws) :
    (ws.val r c = .vnone →
      dictGet (build_model_from_workbook terms wb).cells (cellAddr ws.title r c) =
        none) ∧
    (∀ v, ws.val r c = v → v ≠ .vnone → is_formula v = false →
      dictGet (build_model_from_workbook terms wb).cells (cellAddr ws.title r c) =
        some ⟨cellAddr ws.title r c, v, none⟩) := by
  have h := build_cells_lookup terms wb hnd ws hws r c hrc
  refine ⟨h.1, fun v hv hnn hnf => ?_⟩
  rw [hv] at h
  rw [h.2 hnn, entryCell_literal hnf]

/-- A fixture sheet whose only non-`None` cell `A1` holds the empty string;
`B1` is `None`. -/
def sheetC : Sheet where
  title := "T"
  maxRow := 1
  maxCol := 2
  val := fun r c => if r = 1 && c = 1 then .vstr "" else .vnone
  fill := fun _ _ => none

theorem build_skips_iff_none_witness :
    dictGet (build_model_from_workbook (fun _ => []) [sheetC]).cells "T!A1" =
      some ⟨"T!A1", .vstr "", none⟩ ∧
    dictGet (build_model_from_workbook (fun _ => []) [sheetC]).cells "T!B1" =
      none := by
  have h1 := build_skips_iff_none (fun _ => []) [sheetC] (by decide) sheetC
    (List.mem_cons_self _ _) 1 1 (by decide)
  have h2 := build_skips_iff_none (fun _ => []) [sheetC] (by decide) sheetC
    (List.mem_cons_self _ _) 1 2 (by decide)
  exact ⟨h1.2 (.vstr "") rfl (fun hh => XlVal.noConfusion hh) rfl, h2.1 rfl⟩

/-- Claim C3: round-trip — after `build_model_from_workbook`, evaluating a
literal (non-formula, non-empty) cell by its canonical address through the
per-cell safe evaluation returns exactly the stored literal value (identity
for numbers, strings and booleans), under the real-workbook assumption of
globally distinct cell addresses. -/
theorem literal_cell_roundtrip (terms : String → List String) (wb : Workbook)
    (hnd : (wbAddrList wb).Nodup) (ws : Sheet) (hws : ws ∈ wb) (r c : Nat)
    (hrc : (r, c) ∈ sheetCoords ws) (v : XlVal) (hv : ws.val r c = v)
    (hnn : v ≠ .vnone) (hnf : is_formula v = false) (hs : v.isScalar = true) :
    safe_eval (evaluateLiteral (build_model_from_workbook terms wb)
      (cellAddr ws.title r c)) = v := by
  have h := build_cells_lookup terms wb hnd ws hws r c hrc
  rw [hv] at h
  have h2 := h.2 hnn
  rw [entryCell_literal hnf] at h2
  apply safe_eval_of_ok
  have h3 : evaluateLiteral (build_model_from_workbook terms wb)
      (cellAddr ws.title r c) = .ok v := by
    simp [evaluateLiteral, h2]
  rw [h3]
  simpa [Except.bind] using unwrap_scalar hs

theorem literal_cell_roundtrip_witness :
    safe_eval (evaluateLiteral (build_model_from_workbook (fun _ => []) [sheetC])
      (cellAddr "T" 1 1)) = .vstr "" :=
  literal_cell_roundtrip (fun _ => []) [sheetC] (by decide) sheetC
    (List.mem_cons_self _ _) 1 1 (by decide) (.vstr "") rfl
    (fun hh => XlVal.noConfusion hh) rfl rfl

end SimEco
